import Mathlib

/-!
Verification development for the latent-interpolation video generator
(`gen_video.py`).  The Python source is shallowly embedded: pure helper
functions become Lean functions over `Nat`/`Int`/`Rat`/`Real`, the render
loop becomes an explicit event trace, and the external collaborators
(NumPy's seeded Gaussian sampler, the network, scipy's interpolant) are
modelled by parameters constrained exactly by their documented contracts.
-/

namespace GenVideo

/-! ### Character-level string utilities (embedding of `s.split`, `re`, `int`) -/

/-- Embedding of Python `s.split(sep)` for a one-character separator,
working on the character list of the string.  `"".split(',') == ['']`,
matching the `[[]]` base case. -/
def splitOnChar (sep : Char) : List Char → List (List Char)
  | [] => [[]]
  | c :: rest =>
    let r := splitOnChar sep rest
    if c = sep then
      [] :: r
    else
      match r with
      | [] => [[c]]
      | h :: t => (c :: h) :: t

/-- Numeric value of a list of decimal digit characters (most significant
first), as computed by Python `int` on a digits-only string. -/
def digitsVal (cs : List Char) : ℕ :=
  cs.foldl (fun acc c => 10 * acc + (c.toNat - 48)) 0

/-- True when the character list is nonempty and all decimal digits,
the language of the regex fragment `\d+`. -/
def isDigits (cs : List Char) : Bool :=
  decide (cs ≠ []) && cs.all (fun c => c.isDigit)

/-- Embedding of `re.compile(r'^(\d+)-(\d+)$').match(p)` from
`parse_range` (gen_video.py line 220): the part must consist of one
digit run, a dash, and a second digit run.  Returns the two captured
numbers. -/
def matchRangeRe (cs : List Char) : Option (ℕ × ℕ) :=
  match splitOnChar (Char.ofNat 45) cs with
  | [a, b] => if isDigits a && isDigits b then some (digitsVal a, digitsVal b) else none
  | _ => none

/-- Embedding of the Python builtin `int(p)` on a string part: an
optional sign followed by a nonempty digit run parses; anything else
raises `ValueError`. -/
def pyInt (cs : List Char) : Except String ℤ :=
  match cs with
  | c :: rest =>
    if c = Char.ofNat 45 then
      if isDigits rest then Except.ok (-(digitsVal rest : ℤ))
      else Except.error ("invalid literal for int")
    else if c = Char.ofNat 43 then
      if isDigits rest then Except.ok ((digitsVal rest : ℤ))
      else Except.error ("invalid literal for int")
    else if isDigits cs then Except.ok ((digitsVal cs : ℤ))
    else Except.error ("invalid literal for int")
  | [] => Except.error ("invalid literal for int")

/-- Body of the loop in `parse_range` (gen_video.py lines 221-226): each
comma-separated part either matches the range regex and contributes
`range(a, b+1)`, or is parsed as a single integer; a `ValueError` from
`int` aborts the whole parse. -/
def parse_range_parts : List (List Char) → Except String (List ℤ)
  | [] => Except.ok []
  | p :: rest =>
    match matchRangeRe p with
    | some (a, b) =>
      (parse_range_parts rest).map
        (fun l => ((List.range (b + 1 - a)).map (fun i => ((a + i : ℕ) : ℤ))) ++ l)
    | none =>
      match pyInt p with
      | Except.ok n => (parse_range_parts rest).map (fun l => n :: l)
      | Except.error e => Except.error e

/-- Embedding of `parse_range` (gen_video.py lines 213-227): split the
input on commas and process each part. -/
def parse_range (s : String) : Except String (List ℤ) :=
  parse_range_parts (splitOnChar (Char.ofNat 44) s.toList)

/-! ### Keyframe resolution and frame counting (gen_interp_video) -/

/-- Embedding of gen_video.py lines 141-146: in `lerp` mode the grid
dimensions come from `grid_dims`; in any other mode (`circularloop`)
the grid is forced to 1x1. -/
def resolveGridDims (interpolation : String) (grid_dims : ℕ × ℕ) : ℕ × ℕ :=
  if interpolation = ("lerp") then grid_dims else (1, 1)

/-- Embedding of gen_video.py lines 155-158: when `num_keyframes` is not
given, the seed count must be divisible by `grid_w * grid_h` (else
`ValueError`), and the keyframe count defaults to the quotient. -/
def resolveNumKeyframes (num_keyframes : Option ℕ) (num_seeds gw gh : ℕ) :
    Except String ℕ :=
  match num_keyframes with
  | some k => Except.ok k
  | none =>
    if num_seeds % (gw * gh) ≠ 0 then
      Except.error ("Number of input seeds must be divisible by grid W*H")
    else
      Except.ok (num_seeds / (gw * gh))

/-- Number of loop iterations of the render loop, gen_video.py line 193:
`range(num_keyframes * w_frames)`, after grid forcing and keyframe
resolution. -/
def totalFrames (interpolation : String) (grid_dims : ℕ × ℕ)
    (num_keyframes : Option ℕ) (num_seeds w_frames : ℕ) : Except String ℕ :=
  let gd := resolveGridDims interpolation grid_dims
  (resolveNumKeyframes num_keyframes num_seeds gd.1 gd.2).map (fun k => k * w_frames)

/-! ### Video sink lifecycle (gen_video.py lines 192-207)

The render loop is embedded as an event trace on the sink handle.  Per
frame, the network evaluation together with `append_data` is modelled as
one fallible step `rf frame_idx`; a raised exception aborts the loop and
propagates (the Python code has no try/finally around the loop). -/

/-- Observable operations performed on the `imageio` writer handle. -/
inductive SinkEvent where
  | opened : SinkEvent
  | appendData : ℕ → SinkEvent
  | closed : SinkEvent
deriving DecidableEq

/-- Trace of the render loop body, gen_video.py lines 193-206, starting
at frame index `i` with `n` iterations remaining: each successful frame
appends data to the sink; an error aborts immediately, and `close` is
reached only when the loop runs to completion (line 207 follows the loop
with no exception handler). -/
def renderEvents (rf : ℕ → Except ε Unit) : ℕ → ℕ → List SinkEvent × Option ε
  | 0, _ => ([SinkEvent.closed], none)
  | n + 1, i =>
    match rf i with
    | Except.ok _ =>
      let r := renderEvents rf n (i + 1)
      (SinkEvent.appendData i :: r.1, r.2)
    | Except.error e => ([], some e)

/-- Embedding of gen_video.py lines 192-207: the writer is opened before
the loop, then the loop of `total` frames runs (see `renderEvents`). -/
def gen_video_sink (rf : ℕ → Except ε Unit) (total : ℕ) : List SinkEvent × Option ε :=
  let r := renderEvents rf total 0
  (SinkEvent.opened :: r.1, r.2)

/-! ### Lemmas about the sink trace -/

theorem renderEvents_ok_trace (rf : ℕ → Except ε Unit) (hok : ∀ i, rf i = Except.ok ()) :
    ∀ n i, renderEvents rf n i =
      ((List.range n).map (fun j => SinkEvent.appendData (i + j)) ++ [SinkEvent.closed], none) := by
  intro n
  induction n with
  | zero => intro i; simp [renderEvents]
  | succ n ih =>
    intro i
    have hmap : (List.range n).map ((fun j => SinkEvent.appendData (i + j)) ∘ Nat.succ)
        = (List.range n).map (fun j => SinkEvent.appendData (i + 1 + j)) :=
      List.map_congr_left (fun j _ => by simp only [Function.comp_apply]; congr 1; omega)
    simp [renderEvents, hok i, ih (i + 1), List.range_succ_eq_map, List.map_map, hmap]

theorem renderEvents_error_no_close (rf : ℕ → Except ε Unit) :
    ∀ n i e, (renderEvents rf n i).2 = some e →
      SinkEvent.closed ∉ (renderEvents rf n i).1 := by
  intro n
  induction n with
  | zero => intro i e h; simp [renderEvents] at h
  | succ n ih =>
    intro i e h
    rcases he : rf i with e₀ | u
    · simp [renderEvents, he]
    · simp only [renderEvents, he] at h ⊢
      intro hmem
      rcases List.mem_cons.mp hmem with h1 | h1
      · exact SinkEvent.noConfusion h1
      · exact ih (i + 1) e h h1

theorem renderEvents_none_close (rf : ℕ → Except ε Unit) :
    ∀ n i, (renderEvents rf n i).2 = none →
      SinkEvent.closed ∈ (renderEvents rf n i).1 := by
  intro n
  induction n with
  | zero => intro i _; simp [renderEvents]
  | succ n ih =>
    intro i h
    rcases he : rf i with e₀ | u
    · simp [renderEvents, he] at h
    · simp only [renderEvents, he] at h ⊢
      exact List.mem_cons_of_mem _ (ih (i + 1) h)

/-! ### Claim theorems: C6, C5, C2, C1 -/

/-- C6: `parse_range` maps a comma-separated string of integers and
inclusive integer ranges to the corresponding flat integer list:
`"1,2,5-10"` parses to `[1,2,5,6,7,8,9,10]`, `"3-3"` parses to `[3]`,
and the malformed input `"a-b"` raises an error. -/
theorem claim_C6_parse_range :
    parse_range ("1,2,5-10") = Except.ok ([1, 2, 5, 6, 7, 8, 9, 10] : List ℤ)
    ∧ parse_range ("3-3") = Except.ok ([3] : List ℤ)
    ∧ parse_range ("a-b") = Except.error ("invalid literal for int") := by
  exact ⟨rfl, rfl, rfl⟩

/-- C5: in lerp mode with no explicit keyframe count, keyframe
resolution errors exactly when the seed count `N` is not divisible by
`grid_w * grid_h`, and otherwise yields `K = N / (grid_w * grid_h)`; in
particular a 2x2 grid with 5 seeds errors while 8 seeds gives `K = 2`. -/
theorem claim_C5_grid_divisibility :
    (∀ N gw gh : ℕ, 0 < gw * gh →
      ((resolveNumKeyframes none N gw gh =
          Except.error ("Number of input seeds must be divisible by grid W*H") ↔
        ¬ (gw * gh ∣ N))
      ∧ (gw * gh ∣ N → resolveNumKeyframes none N gw gh = Except.ok (N / (gw * gh)))))
    ∧ resolveNumKeyframes none 5 2 2 =
        Except.error ("Number of input seeds must be divisible by grid W*H")
    ∧ resolveNumKeyframes none 8 2 2 = Except.ok 2 := by
  refine ⟨?_, rfl, rfl⟩
  intro N gw gh _
  constructor
  · by_cases h : N % (gw * gh) = 0
    · have hd : gw * gh ∣ N := Nat.dvd_of_mod_eq_zero h
      simp [resolveNumKeyframes, h, hd]
    · have hd : ¬ gw * gh ∣ N := by
        intro hc
        obtain ⟨c, rfl⟩ := hc
        exact h (Nat.mul_mod_right _ _)
      simp [resolveNumKeyframes, h, hd]
  · intro hd
    have h : N % (gw * gh) = 0 := by
      obtain ⟨c, rfl⟩ := hd
      exact Nat.mul_mod_right _ _
    simp [resolveNumKeyframes, h]

/-- C5 witness: concrete instantiation at `N = 8`, grid 2x2. -/
theorem claim_C5_witness :
    0 < 2 * 2
    ∧ ((resolveNumKeyframes none 8 2 2 =
          Except.error ("Number of input seeds must be divisible by grid W*H") ↔
        ¬ (2 * 2 ∣ 8))
      ∧ (2 * 2 ∣ 8 → resolveNumKeyframes none 8 2 2 = Except.ok (8 / (2 * 2)))) :=
  ⟨by decide, claim_C5_grid_divisibility.1 8 2 2 (by decide)⟩

/-- C2 counterexample: in circularloop mode with an explicit
`--num-keyframes` value, the render loop length is
`num_keyframes * w_frames`, not `len(seeds) * w_frames`: with 3 seeds,
`num_keyframes = 2` and `w_frames = 120` the code renders 240 frames
while the claim requires `3 * 120 = 360`. -/
theorem claim_C2_counterexample :
    totalFrames ("circularloop") (1, 1) (some 2) 3 120 = Except.ok 240
    ∧ (240 : ℕ) ≠ 3 * 120 := by
  exact ⟨rfl, by decide⟩

/-- C2 (amended): the total number of frames rendered and handed to the
sink in increasing index order is `num_keyframes * w_frames`; this
equals `K * w_frames` in lerp mode (`K` the explicit or derived
keyframe count) and `len(seeds) * w_frames` in circularloop mode only
when no explicit `--num-keyframes` is supplied (the forced 1x1 grid
makes the derived count `len(seeds)`); with an explicit value `K`,
circularloop mode renders `K * w_frames` frames instead. -/
theorem claim_C2_total_frames :
    (∀ (gd : ℕ × ℕ) (K n wf : ℕ),
      totalFrames ("lerp") gd (some K) n wf = Except.ok (K * wf))
    ∧ (∀ gw gh n wf : ℕ, gw * gh ∣ n →
      totalFrames ("lerp") (gw, gh) none n wf = Except.ok ((n / (gw * gh)) * wf))
    ∧ (∀ (gd : ℕ × ℕ) (n wf : ℕ),
      totalFrames ("circularloop") gd none n wf = Except.ok (n * wf))
    ∧ (∀ (gd : ℕ × ℕ) (K n wf : ℕ),
      totalFrames ("circularloop") gd (some K) n wf = Except.ok (K * wf))
    ∧ (∀ (ε : Type) (rf : ℕ → Except ε Unit), (∀ i, rf i = Except.ok ()) → ∀ total,
      gen_video_sink rf total =
        (SinkEvent.opened ::
          ((List.range total).map SinkEvent.appendData ++ [SinkEvent.closed]), none)) := by
  refine ⟨fun gd K n wf => rfl, ?_, ?_, fun gd K n wf => rfl, ?_⟩
  · intro gw gh n wf hd
    have h : n % (gw * gh) = 0 := by
      obtain ⟨c, rfl⟩ := hd
      exact Nat.mul_mod_right _ _
    simp [totalFrames, resolveGridDims, resolveNumKeyframes, h, Except.map]
  · intro gd n wf
    simp [totalFrames, resolveGridDims, resolveNumKeyframes, Nat.mod_one, Except.map]
  · intro ε rf hok total
    have h := renderEvents_ok_trace rf hok total 0
    simp only [gen_video_sink, h]
    simp

/-- C2 witness: concrete instantiation of the amended statement, lerp
mode with 8 seeds on a 2x2 grid and an always-succeeding renderer. -/
theorem claim_C2_witness :
    (2 * 2 ∣ 8 ∧ totalFrames ("lerp") (2, 2) none 8 120 = Except.ok ((8 / (2 * 2)) * 120))
    ∧ ((∀ i, (fun _ : ℕ => (Except.ok () : Except Unit Unit)) i = Except.ok ())
      ∧ gen_video_sink (fun _ : ℕ => (Except.ok () : Except Unit Unit)) 2 =
          (SinkEvent.opened ::
            ((List.range 2).map SinkEvent.appendData ++ [SinkEvent.closed]), none)) :=
  ⟨⟨by decide, claim_C2_total_frames.2.1 2 2 8 120 (by decide)⟩,
   ⟨fun _ => rfl, claim_C2_total_frames.2.2.2.2 Unit _ (fun _ => rfl) 2⟩⟩

/-- C1 counterexample: when the first frame evaluation raises, the
error escapes the loop while the sink trace contains no close event —
the handle leaks on the error path (there is no try/finally around the
render loop). -/
theorem claim_C1_counterexample :
    (gen_video_sink (fun _ : ℕ => (Except.error 7 : Except ℕ Unit)) 1).2 = some 7
    ∧ SinkEvent.closed ∉ (gen_video_sink (fun _ : ℕ => (Except.error 7 : Except ℕ Unit)) 1).1 := by
  exact ⟨rfl, by decide⟩

/-- C1 (amended): the sink is opened before the loop; it is closed when
the loop completes without error, but when an error escapes the render
loop no close is performed and the handle leaks. -/
theorem claim_C1_sink_lifecycle (ε : Type) (rf : ℕ → Except ε Unit) (total : ℕ) :
    (gen_video_sink rf total).1.head? = some SinkEvent.opened
    ∧ ((gen_video_sink rf total).2 = none →
        SinkEvent.closed ∈ (gen_video_sink rf total).1)
    ∧ (∀ e, (gen_video_sink rf total).2 = some e →
        SinkEvent.closed ∉ (gen_video_sink rf total).1) := by
  refine ⟨rfl, ?_, ?_⟩
  · intro h
    exact List.mem_cons_of_mem _ (renderEvents_none_close rf total 0 h)
  · intro e h hmem
    rcases List.mem_cons.mp hmem with h1 | h1
    · exact SinkEvent.noConfusion h1
    · exact renderEvents_error_no_close rf total 0 e h h1

/-- C1 witness: concrete instantiation with an always-succeeding
renderer over one frame; the loop completes and the sink is closed. -/
theorem claim_C1_witness :
    (gen_video_sink (fun _ : ℕ => (Except.ok () : Except Unit Unit)) 1).2 = none
    ∧ SinkEvent.closed ∈ (gen_video_sink (fun _ : ℕ => (Except.ok () : Except Unit Unit)) 1).1 :=
  ⟨rfl, (claim_C1_sink_lifecycle Unit (fun _ => Except.ok ()) 1).2.1 rfl⟩

/-! ### Grid compositor (gen_video.py lines 31-45)

A `[batch, channels, height, width]` tensor is embedded as an index
function; each reshape/permute of the source becomes the corresponding
row-major index transformation. -/

/-- Embedding of line 37, `(img * 127.5 + 128).clamp(0, 255).to(torch.uint8)`,
on one scalar: scale, clamp to `[0, 255]`, truncate to integer (on the
clamped nonnegative range truncation equals floor). -/
def float_to_uint8_val (x : ℚ) : ℚ :=
  ((Int.floor (min 255 (max 0 (x * 127.5 + 128))) : ℤ) : ℚ)

/-- Embedding of lines 33-34: when `grid_w` is `None` it defaults to
`batch_size // grid_h`. -/
def layout_grid_resolve_gw (batch_size : ℕ) (grid_w : Option ℕ) (grid_h : ℕ) : ℕ :=
  grid_w.getD (batch_size / grid_h)

/-- Condition of the assertion on line 35: `batch_size == grid_w * grid_h`. -/
def layout_grid_batch_check (batch_size grid_w grid_h : ℕ) : Bool :=
  batch_size == grid_w * grid_h

/-- Line 37 applied elementwise to the whole batch tensor. -/
def lg_scale (img : ℕ → ℕ → ℕ → ℕ → ℚ) : ℕ → ℕ → ℕ → ℕ → ℚ :=
  fun b k i j => float_to_uint8_val (img b k i j)

/-- Line 38, `img.reshape(grid_h, grid_w, channels, img_h, img_w)`:
row-major split of the batch axis, so cell `(yi, xi)` holds batch entry
`yi * grid_w + xi`. -/
def lg_reshape5 (img : ℕ → ℕ → ℕ → ℕ → ℚ) (grid_w : ℕ) :
    ℕ → ℕ → ℕ → ℕ → ℕ → ℚ :=
  fun yi xi k i j => img (yi * grid_w + xi) k i j

/-- Line 39, `img.permute(2, 0, 3, 1, 4)`: axis order becomes
`[channels, grid_h, img_h, grid_w, img_w]`. -/
def lg_permute5 (t : ℕ → ℕ → ℕ → ℕ → ℕ → ℚ) : ℕ → ℕ → ℕ → ℕ → ℕ → ℚ :=
  fun k yi i xi j => t yi xi k i j

/-- Line 40, `img.reshape(channels, grid_h * img_h, grid_w * img_w)`:
row-major merge of the `(grid_h, img_h)` axes into rows and the
`(grid_w, img_w)` axes into columns, so row `r` addresses cell row
`r / img_h` at in-cell row `r % img_h`, and likewise for columns. -/
def lg_reshape3 (t : ℕ → ℕ → ℕ → ℕ → ℕ → ℚ) (img_h img_w : ℕ) :
    ℕ → ℕ → ℕ → ℚ :=
  fun k r c => t k (r / img_h) (r % img_h) (c / img_w) (c % img_w)

/-- Line 42, `img.permute(1, 2, 0)`: channel-first to channel-last. -/
def lg_permute_hwc (t : ℕ → ℕ → ℕ → ℚ) : ℕ → ℕ → ℕ → ℚ :=
  fun r c k => t k r c

/-- Embedding of the tiling pipeline of `layout_grid` (lines 36-44) with
the call-site flags of line 206 (`float_to_uint8`, `chw_to_hwc` and
`to_numpy` all at their `True` defaults). -/
def layout_grid (img : ℕ → ℕ → ℕ → ℕ → ℚ) (img_h img_w grid_w : ℕ) :
    ℕ → ℕ → ℕ → ℚ :=
  lg_permute_hwc (lg_reshape3 (lg_permute5 (lg_reshape5 (lg_scale img) grid_w)) img_h img_w)

/-- Shape bookkeeping for `layout_grid`: the source fixes the reshape
target shapes on lines 38 and 40, and each permute reorders the shape
list; the result is the shape of the returned array. -/
def permuteShape (perm shape : List ℕ) : List ℕ :=
  perm.map (fun i => shape.getD i 0)

/-- Shape of the array returned by `layout_grid` on a
`[batch, channels, img_h, img_w]` input with grid `(grid_w, grid_h)`,
tracked through lines 38-42. -/
def layout_grid_shape (channels img_h img_w grid_w grid_h : ℕ) : List ℕ :=
  let s5 := [grid_h, grid_w, channels, img_h, img_w]
  let s5p := permuteShape [2, 0, 3, 1, 4] s5
  let s3 := [s5p.getD 0 0, grid_h * img_h, grid_w * img_w]
  permuteShape [1, 2, 0] s3

/-- Embedding of the inner double loop of the render loop, lines
194-205: one image is appended per grid cell, rows outer, columns
inner, in both interpolation modes (`renderCell` abstracts the branch
on the interpolation kind, which appends exactly one image either
way). -/
def renderFrameImgs (renderCell : ℕ → ℕ → α) (grid_h grid_w : ℕ) : List α :=
  ((List.range grid_h).map (fun yi => (List.range grid_w).map (fun xi => renderCell yi xi))).flatten

/-! ### Claim theorems: C9, C10 -/

/-- C9: `layout_grid` composites `W*H` images of shape
`[ch, h, w]` into a channel-last image of shape `[H*h, W*w, ch]`,
row-major by grid row then grid column: the image of grid cell
`(yi, xi)` (batch entry `yi*W + xi`) occupies the tile whose top-left
corner is at row `yi*h`, column `xi*w`. -/
theorem claim_C9_layout_grid :
    (∀ channels img_h img_w grid_w grid_h : ℕ,
      layout_grid_shape channels img_h img_w grid_w grid_h =
        [grid_h * img_h, grid_w * img_w, channels])
    ∧ (∀ (img : ℕ → ℕ → ℕ → ℕ → ℚ) (img_h img_w grid_w : ℕ) (yi xi i j k : ℕ),
      i < img_h → j < img_w →
      layout_grid img img_h img_w grid_w (yi * img_h + i) (xi * img_w + j) k =
        float_to_uint8_val (img (yi * grid_w + xi) k i j)) := by
  refine ⟨fun channels img_h img_w grid_w grid_h => rfl, ?_⟩
  intro img img_h img_w grid_w yi xi i j k hi hj
  have h1 : (yi * img_h + i) / img_h = yi := by
    rw [Nat.mul_comm yi img_h, Nat.mul_add_div (Nat.zero_lt_of_lt hi)]
    simp [Nat.div_eq_of_lt hi]
  have h2 : (yi * img_h + i) % img_h = i := by
    rw [Nat.mul_comm yi img_h, Nat.mul_add_mod]
    exact Nat.mod_eq_of_lt hi
  have h3 : (xi * img_w + j) / img_w = xi := by
    rw [Nat.mul_comm xi img_w, Nat.mul_add_div (Nat.zero_lt_of_lt hj)]
    simp [Nat.div_eq_of_lt hj]
  have h4 : (xi * img_w + j) % img_w = j := by
    rw [Nat.mul_comm xi img_w, Nat.mul_add_mod]
    exact Nat.mod_eq_of_lt hj
  simp [layout_grid, lg_permute_hwc, lg_reshape3, lg_permute5, lg_reshape5, lg_scale,
    h1, h2, h3, h4]

/-- Concrete test image for the C9 witness. -/
def testImg : ℕ → ℕ → ℕ → ℕ → ℚ :=
  fun b k i j => (b : ℚ) + k + i + j

/-- C9 witness: concrete instantiation, 4x5 images on a grid of width 2,
cell (1, 1), in-cell pixel (2, 3). -/
theorem claim_C9_witness :
    (2 : ℕ) < 4 ∧ (3 : ℕ) < 5 ∧
    layout_grid testImg 4 5 2 (1 * 4 + 2) (1 * 5 + 3) 0 =
      float_to_uint8_val (testImg (1 * 2 + 1) 0 2 3) :=
  ⟨by decide, by decide,
    claim_C9_layout_grid.2 testImg 4 5 2 1 1 2 3 0 (by decide) (by decide)⟩

/-- C10: the assertion of `layout_grid` (line 35) never fails when
invoked from the render loop: in every frame iteration, in both modes,
the inner double loop stacks exactly `grid_h * grid_w` images, and
`layout_grid` is called with those same grid dimensions (line 206). -/
theorem claim_C10_assert_safe (α : Type) (renderCell : ℕ → ℕ → α) (grid_w grid_h : ℕ) :
    layout_grid_batch_check (renderFrameImgs renderCell grid_h grid_w).length grid_w grid_h
      = true := by
  have hlen : (renderFrameImgs renderCell grid_h grid_w).length = grid_h * grid_w := by
    simp only [renderFrameImgs, List.length_flatten, List.map_map]
    have hconst : (List.length ∘ fun yi => List.map (fun xi => renderCell yi xi) (List.range grid_w))
        = fun _ => grid_w := by
      funext yi
      simp
    rw [hconst]
    simp [List.map_const', List.sum_replicate, smul_eq_mul]
  simp [layout_grid_batch_check, hlen, Nat.mul_comm]

/-! ### Stabilization pre-pass (gen_video.py lines 148-153)

The affine-input stage `G.synthesis.input.affine` is a linear layer; its
learned parameters are embedded as rational matrices/vectors.  The rest
of the network's parameters are abstracted as an uninterpreted value. -/

/-- Dot product of two rational vectors. -/
def dotQ (u v : List ℚ) : ℚ :=
  (List.zipWith (fun a b => a * b) u v).sum

/-- Learned parameters of the affine-input stage. -/
structure AffineParams where
  weight : List (List ℚ)
  bias : List ℚ
deriving DecidableEq

/-- Forward pass of the affine stage: `affine(v) = weight @ v + bias`. -/
def affineForward (p : AffineParams) (v : List ℚ) : List ℚ :=
  List.zipWith (fun row b => dotQ row v + b) p.weight p.bias

/-- Embedding of lines 151-153: `shift = G.synthesis.input.affine(w_avg)`
computed with the current parameters, then `bias.data.add_(shift)`
(in-place addition) and `weight.data.zero_()`. -/
def stabilizeAffine (p : AffineParams) (w_avg : List ℚ) : AffineParams :=
  let shift := affineForward p w_avg
  { weight := p.weight.map (fun row => row.map (fun _ => 0)),
    bias := List.zipWith (fun b s => b + s) p.bias shift }

/-- Parameter state of the network: the affine-input stage, the mean
latent `w_avg`, and all remaining parameters abstracted as a value of
type `τ`. -/
structure NetworkState (τ : Type) where
  affineInput : AffineParams
  wAvg : List ℚ
  otherParams : τ

/-- Embedding of lines 148-153: the pre-pass runs once when
`stabilize_video` is set and the network exposes the input stage
(`hasattr(G.synthesis, 'input')`); it only touches the affine stage. -/
def stabilizeNetwork (stabilize_video hasInput : Bool) (G : NetworkState τ) : NetworkState τ :=
  if stabilize_video && hasInput then
    { G with affineInput := stabilizeAffine G.affineInput G.wAvg }
  else G

/-- The render loop (lines 193-206) with respect to network parameters:
every frame is produced from the same network state, which the loop
only reads. -/
def renderFrames (render : NetworkState τ → ℕ → φ) (G : NetworkState τ) (total : ℕ) : List φ :=
  (List.range total).map (render G)

/-- Parameter-mutation skeleton of `gen_interp_video`: the stabilization
pre-pass (lines 148-153) runs first, then the render loop (lines
192-207) uses the resulting state for every frame. -/
def gen_interp_network_phase (stabilize_video hasInput : Bool) (G : NetworkState τ)
    (render : NetworkState τ → ℕ → φ) (total : ℕ) : NetworkState τ × List φ :=
  let G1 := stabilizeNetwork stabilize_video hasInput G
  (G1, renderFrames render G1 total)

/-! ### Spline interpolation data (gen_video.py lines 179-183) -/

/-- Embedding of line 179, `np.arange(-num_keyframes * wraps,
num_keyframes * (wraps + 1))`: the integer index axis of the cyclic
extension. -/
def splineAxis (K wraps : ℕ) : List ℤ :=
  (List.range (K * (2 * wraps + 1))).map (fun i : ℕ => (i : ℤ) - (K : ℤ) * (wraps : ℤ))

/-- Embedding of line 180, `np.tile(ws[yi][xi], [wraps * 2 + 1, 1, 1])`:
the per-cell keyframe vectors tiled `2*wraps + 1` times along the
keyframe axis. -/
def splineValues (keyframes : List V) (wraps : ℕ) : List V :=
  (List.replicate (2 * wraps + 1) keyframes).flatten

/-- Defining property of `scipy.interpolate.interp1d(x, y, kind, axis=0)`
(line 182, external collaborator): the returned callable passes through
every supplied data point. -/
def IsInterpolantOn (f : ℚ → V) (x : List ℤ) (y : List V) : Prop :=
  ∀ (i : ℕ) (h1 : i < x.length) (h2 : i < y.length), f ((x[i] : ℤ) : ℚ) = y[i]

theorem length_flatten_replicate (l : List α) (m : ℕ) :
    ((List.replicate m l).flatten).length = m * l.length := by
  simp [List.length_flatten, List.map_replicate, List.sum_replicate, smul_eq_mul]

theorem getElem_flatten_replicate (l : List α) :
    ∀ (m i : ℕ) (h : i < ((List.replicate m l).flatten).length)
      (h2 : i % l.length < l.length),
      ((List.replicate m l).flatten)[i] = l[i % l.length] := by
  intro m
  induction m with
  | zero =>
    intro i h h2
    exact absurd h (by simp)
  | succ m ih =>
    intro i h h2
    have hpos : 0 < l.length := by
      rcases Nat.eq_zero_or_pos l.length with h0 | h0
      · rw [h0] at h2; omega
      · exact h0
    have hflat : (List.replicate (m + 1) l).flatten = l ++ (List.replicate m l).flatten := by
      simp [List.replicate_succ]
    have hlen : ((List.replicate m l).flatten).length = m * l.length :=
      length_flatten_replicate l m
    have hlen1 : ((List.replicate (m + 1) l).flatten).length = m * l.length + l.length := by
      rw [length_flatten_replicate l (m + 1)]
      ring
    by_cases hi : i < l.length
    · have hmod : i % l.length = i := Nat.mod_eq_of_lt hi
      simp only [hflat]
      rw [List.getElem_append_left hi]
      congr 1
      omega
    · have hle : l.length ≤ i := Nat.le_of_not_lt hi
      have hlt : i - l.length < ((List.replicate m l).flatten).length := by
        have h1 : i < (List.replicate (m + 1) l).flatten.length := h
        rw [hlen1] at h1
        rw [hlen]
        omega
      have hmod : (i - l.length) % l.length = i % l.length :=
        (Nat.mod_eq_sub_mod hle).symm
      have hmlt : (i - l.length) % l.length < l.length := Nat.mod_lt _ hpos
      simp only [hflat]
      rw [List.getElem_append_right hle]
      rw [ih (i - l.length) hlt hmlt]
      simp only [hmod]

/-! ### Claim theorems: C3, C7 -/

/-- C3 counterexample: the stabilization pre-pass does not overwrite the
affine bias with the mean-latent-conditioned affine output; it adds the
output to the bias.  With `weight = [[0]]`, `bias = [1]`, `w_avg = [0]`
the affine output is `[1]` but the post-pass bias is `[2]`. -/
theorem claim_C3_counterexample :
    (stabilizeAffine ⟨[[0]], [1]⟩ [0]).bias ≠ affineForward ⟨[[0]], [1]⟩ [0] := by
  simp [stabilizeAffine, affineForward, dotQ]

/-- C3 (amended): when stabilization is enabled and the network exposes
the affine-input stage, exactly one parameter mutation happens, before
any frame is rendered: the stage's bias is incremented by the
mean-latent-conditioned affine output (`bias += affine(w_avg)`, not an
overwrite) and its weight is zeroed; no other parameter is modified
and the render loop only reads the resulting state. -/
theorem claim_C3_stabilization (τ φ : Type) (G : NetworkState τ)
    (render : NetworkState τ → ℕ → φ) (total : ℕ) :
    ((gen_interp_network_phase true true G render total).1.affineInput.weight =
        G.affineInput.weight.map (fun row => row.map (fun _ => 0))
      ∧ (gen_interp_network_phase true true G render total).1.affineInput.bias =
          List.zipWith (fun b s => b + s) G.affineInput.bias
            (affineForward G.affineInput G.wAvg))
    ∧ (∀ sv hi : Bool,
        (gen_interp_network_phase sv hi G render total).1.wAvg = G.wAvg
        ∧ (gen_interp_network_phase sv hi G render total).1.otherParams = G.otherParams)
    ∧ (∀ sv hi : Bool,
        (gen_interp_network_phase sv hi G render total).2 =
          (List.range total).map (render (gen_interp_network_phase sv hi G render total).1)) := by
  refine ⟨⟨rfl, rfl⟩, ?_, fun sv hi => rfl⟩
  intro sv hi
  cases sv <;> cases hi <;> exact ⟨rfl, rfl⟩

/-- C7: for a spline path built from `K` keyframes with `wraps ≥ 1`
(index axis from line 179, tiled values from line 180), any interpolant
through those data points takes equal values at parameters `t = 0` and
`t = K`: one full cycle closes the loop. -/
theorem claim_C7_spline_loop_closure (V : Type) (K wraps : ℕ) (keyframes : List V)
    (f : ℚ → V) (hK : keyframes.length = K) (hK1 : 1 ≤ K) (hw : 1 ≤ wraps)
    (hf : IsInterpolantOn f (splineAxis K wraps) (splineValues keyframes wraps)) :
    f 0 = f (K : ℚ) := by
  have hxlen : (splineAxis K wraps).length = K * (2 * wraps + 1) := by
    unfold splineAxis
    rw [List.length_map, List.length_range]
  have hylen : (splineValues keyframes wraps).length = (2 * wraps + 1) * K := by
    unfold splineValues
    rw [length_flatten_replicate, hK]
  have hKw : 1 ≤ K * wraps := by
    have h := Nat.mul_le_mul hK1 hw
    simpa using h
  have hexp : K * (2 * wraps + 1) = K * wraps + K * wraps + K := by ring
  have hexp2 : (2 * wraps + 1) * K = K * wraps + K * wraps + K := by ring
  have hb0 : K * wraps < (splineAxis K wraps).length := by
    rw [hxlen, hexp]; omega
  have hb1 : K * wraps + K < (splineAxis K wraps).length := by
    rw [hxlen, hexp]; omega
  have hc0 : K * wraps < (splineValues keyframes wraps).length := by
    rw [hylen, hexp2]; omega
  have hc1 : K * wraps + K < (splineValues keyframes wraps).length := by
    rw [hylen, hexp2]; omega
  have hx0 : ((splineAxis K wraps)[K * wraps] : ℤ) = 0 := by
    simp only [splineAxis, List.getElem_map, List.getElem_range]
    push_cast
    ring
  have hx1 : ((splineAxis K wraps)[K * wraps + K] : ℤ) = (K : ℤ) := by
    simp only [splineAxis, List.getElem_map, List.getElem_range]
    push_cast
    ring
  have hy0 : (splineValues keyframes wraps)[K * wraps] =
      keyframes[0] := by
    have hmod : (K * wraps) % keyframes.length = 0 := by
      rw [hK]; exact Nat.mul_mod_right K wraps
    have := getElem_flatten_replicate keyframes (2 * wraps + 1) (K * wraps)
      (by simpa [splineValues] using hc0) (by rw [hmod]; omega)
    simpa [splineValues, hmod] using this
  have hy1 : (splineValues keyframes wraps)[K * wraps + K] =
      keyframes[0] := by
    have hmod : (K * wraps + K) % keyframes.length = 0 := by
      rw [hK]
      have : K * wraps + K = K * (wraps + 1) := by ring
      rw [this]
      exact Nat.mul_mod_right K (wraps + 1)
    have := getElem_flatten_replicate keyframes (2 * wraps + 1) (K * wraps + K)
      (by simpa [splineValues] using hc1) (by rw [hmod]; omega)
    simpa [splineValues, hmod] using this
  have h0 := hf (K * wraps) hb0 hc0
  have h1 := hf (K * wraps + K) hb1 hc1
  rw [hx0] at h0
  rw [hx1] at h1
  rw [hy0] at h0
  rw [hy1] at h1
  simp only [Int.cast_zero] at h0
  simp only [Int.cast_natCast] at h1
  rw [h0, h1]

/-- C7 witness: one keyframe, one wrap, and the constant interpolant. -/
theorem claim_C7_witness :
    (([(0 : ℚ)].length = 1 ∧ 1 ≤ 1
      ∧ IsInterpolantOn (fun _ : ℚ => (0 : ℚ)) (splineAxis 1 1) (splineValues [(0 : ℚ)] 1))
    ∧ (fun _ : ℚ => (0 : ℚ)) 0 = (fun _ : ℚ => (0 : ℚ)) ((1 : ℕ) : ℚ)) := by
  have hint : IsInterpolantOn (fun _ : ℚ => (0 : ℚ)) (splineAxis 1 1) (splineValues [(0 : ℚ)] 1) := by
    intro i h1 h2
    have h3 : i < 3 := by simpa [splineValues, length_flatten_replicate] using h2
    interval_cases i <;> rfl
  exact ⟨⟨rfl, le_refl 1, hint⟩,
    claim_C7_spline_loop_closure ℚ 1 1 [(0 : ℚ)] (fun _ => 0) rfl (le_refl 1) (le_refl 1) hint⟩

/-! ### Circular interpolation (gen_video.py lines 50-87)

Latent vectors are lists of reals; NumPy float arithmetic is modelled by
exact real arithmetic.  The seeded Gaussian sampler
`np.random.RandomState(int(seed)).randn(1, n)` is an external
collaborator and is abstracted as a function `randn` from the requested
dimension and the seed to a vector; its shape contract (the result has
`n` entries) enters theorems as a hypothesis. -/

/-- Componentwise addition of equal-length NumPy arrays. -/
def vadd (u v : List ℝ) : List ℝ :=
  List.zipWith (fun a b => a + b) u v

/-- Componentwise subtraction. -/
def vsub (u v : List ℝ) : List ℝ :=
  List.zipWith (fun a b => a - b) u v

/-- Scalar times array. -/
def vsmul (c : ℝ) (v : List ℝ) : List ℝ :=
  v.map (fun a => c * a)

/-- Array divided by a scalar. -/
noncomputable def vdivs (v : List ℝ) (c : ℝ) : List ℝ :=
  v.map (fun a => a / c)

/-- Embedding of `np.linalg.norm` (default: Euclidean norm). -/
noncomputable def npNorm (v : List ℝ) : ℝ :=
  Real.sqrt ((v.map (fun a => a * a)).sum)

/-- The normalized axis vector `(la - lb) / norm(la - lb)` of lines
80-81. -/
noncomputable def circAxis (la lb : List ℝ) : List ℝ :=
  vdivs (vsub la lb) (npNorm (vsub la lb))

/-- Embedding of `circular_interpolation` (lines 77-87):
`latents_a + sin(2*pi*t)*radius * axis_x + cos(2*pi*t)*radius * axis_y`. -/
noncomputable def circular_interpolation (radius : ℝ) (la lb lc : List ℝ) (t : ℝ) : List ℝ :=
  let latents_axis_x := circAxis la lb
  let latents_axis_y := circAxis la lc
  let latents_x := Real.sin (Real.pi * 2 * t) * radius
  let latents_y := Real.cos (Real.pi * 2 * t) * radius
  vadd (vadd la (vsmul latents_x latents_axis_x)) (vsmul latents_y latents_axis_y)

/-- The `while current_pos < 1.0` loop of lines 66-71, with explicit
fuel for termination; in exact arithmetic the loop runs exactly `nf`
times, so any fuel above that is equivalent (proved below). -/
noncomputable def circularloopGo (r : ℝ) (la lb lc : List ℝ) (step : ℝ) :
    ℕ → ℝ → List (List ℝ)
  | 0, _ => []
  | fuel + 1, pos =>
    if pos < 1 then
      circular_interpolation r la lb lc pos :: circularloopGo r la lb lc step fuel (pos + step)
    else []

/-- First anchor latent of `circularloop`, line 57: the latent dimension
is hardcoded to 512 (the source comments `hardcoding in 512, prob TODO
fix needed`). -/
def circAnchorA (randn : ℕ → ℤ → List ℝ) (seeds : List ℤ) : List ℝ :=
  randn 512 (seeds.getD 0 0)

/-- Second anchor latent, line 58 (hardcoded dimension 512). -/
def circAnchorB (randn : ℕ → ℤ → List ℝ) (seeds : List ℤ) : List ℝ :=
  randn 512 (seeds.getD 1 0)

/-- Third anchor latent, line 59 (hardcoded dimension 512). -/
def circAnchorC (randn : ℕ → ℤ → List ℝ) (seeds : List ℤ) : List ℝ :=
  randn 512 (seeds.getD 2 0)

/-- Embedding of `circularloop` (lines 50-72): radius `d/2`, three
anchors from the first three seeds, then samples collected while
stepping the position from 0 by `1/nf`. -/
noncomputable def circularloop (randn : ℕ → ℤ → List ℝ) (nf : ℕ) (d : ℝ) (seeds : List ℤ) :
    List (List ℝ) :=
  let r := d / 2
  circularloopGo r (circAnchorA randn seeds) (circAnchorB randn seeds) (circAnchorC randn seeds)
    (1 / (nf : ℝ)) (nf + 1) 0

/-- The per-keyframe latents of lerp mode, line 168:
`np.random.RandomState(seed).randn(G.z_dim)` for each expanded seed. -/
def lerpLatents (randn : ℕ → ℤ → List ℝ) (z_dim : ℕ) (all_seeds : List ℤ) : List (List ℝ) :=
  all_seeds.map (fun s => randn z_dim s)

/-! ### Lemmas about the circular loop -/

theorem length_vadd (u v : List ℝ) : (vadd u v).length = min u.length v.length := by
  simp [vadd]

theorem length_vsub (u v : List ℝ) : (vsub u v).length = min u.length v.length := by
  simp [vsub]

theorem length_vsmul (c : ℝ) (v : List ℝ) : (vsmul c v).length = v.length := by
  simp [vsmul]

theorem length_circAxis (la lb : List ℝ) :
    (circAxis la lb).length = min la.length lb.length := by
  simp [circAxis, vdivs, length_vsub]

theorem circular_interpolation_length (radius : ℝ) (la lb lc : List ℝ) (t : ℝ) (L : ℕ)
    (ha : la.length = L) (hb : lb.length = L) (hc : lc.length = L) :
    (circular_interpolation radius la lb lc t).length = L := by
  simp [circular_interpolation, length_vadd, length_vsmul, length_circAxis, ha, hb, hc]

theorem circular_interpolation_getElem (radius : ℝ) (la lb lc : List ℝ) (t : ℝ) (i : ℕ)
    (h : i < (circular_interpolation radius la lb lc t).length)
    (h1 : i < la.length) (h2 : i < (circAxis la lb).length) (h3 : i < (circAxis la lc).length) :
    (circular_interpolation radius la lb lc t)[i] =
      la[i] + Real.sin (Real.pi * 2 * t) * radius * (circAxis la lb)[i]
        + Real.cos (Real.pi * 2 * t) * radius * (circAxis la lc)[i] := by
  simp only [circular_interpolation, vadd, vsmul, List.getElem_zipWith, List.getElem_map]

theorem circularloopGo_eq (r : ℝ) (la lb lc : List ℝ) (nf : ℕ) (hnf : 1 ≤ nf) :
    ∀ (m k fuel : ℕ), k + m = nf → m < fuel →
      circularloopGo r la lb lc (1 / (nf : ℝ)) fuel ((k : ℝ) / (nf : ℝ)) =
        (List.range m).map
          (fun j => circular_interpolation r la lb lc (((k + j : ℕ) : ℝ) / (nf : ℝ))) := by
  have hnf0 : ((nf : ℝ)) ≠ 0 := by
    have : (0 : ℝ) < nf := by exact_mod_cast Nat.lt_of_lt_of_le Nat.zero_lt_one hnf
    exact ne_of_gt this
  have hnfpos : (0 : ℝ) < nf := by
    exact_mod_cast Nat.lt_of_lt_of_le Nat.zero_lt_one hnf
  intro m
  induction m with
  | zero =>
    intro k fuel hk hfuel
    obtain ⟨f, rfl⟩ : ∃ f, fuel = f + 1 := ⟨fuel - 1, by omega⟩
    have hk1 : k = nf := by omega
    subst hk1
    have hpos : ((k : ℝ) / (k : ℝ)) = 1 := div_self hnf0
    rw [circularloopGo, hpos, if_neg (lt_irrefl 1)]
    simp
  | succ m ih =>
    intro k fuel hk hfuel
    obtain ⟨f, rfl⟩ : ∃ f, fuel = f + 1 := ⟨fuel - 1, by omega⟩
    have hklt : k < nf := by omega
    have hlt : ((k : ℝ) / (nf : ℝ)) < 1 := by
      rw [div_lt_one hnfpos]
      exact_mod_cast hklt
    have hstep : ((k : ℝ) / (nf : ℝ)) + 1 / (nf : ℝ) = (((k + 1 : ℕ) : ℝ)) / (nf : ℝ) := by
      rw [div_add_div_same]
      push_cast
      ring_nf
    have hfun : ((fun j : ℕ => circular_interpolation r la lb lc (((k + j : ℕ) : ℝ) / (nf : ℝ)))
          ∘ Nat.succ)
        = fun j : ℕ => circular_interpolation r la lb lc (((k + 1 + j : ℕ) : ℝ) / (nf : ℝ)) := by
      funext j
      simp only [Function.comp_apply]
      congr 1
      push_cast
      ring
    rw [circularloopGo, if_pos hlt, hstep, ih (k + 1) f (by omega) (by omega)]
    rw [List.range_succ_eq_map, List.map_cons, List.map_map, hfun]
    congr 2

theorem circularloop_samples (randn : ℕ → ℤ → List ℝ) (nf : ℕ) (hnf : 1 ≤ nf) (d : ℝ)
    (seeds : List ℤ) :
    circularloop randn nf d seeds =
      (List.range nf).map
        (fun k : ℕ => circular_interpolation (d / 2) (circAnchorA randn seeds)
          (circAnchorB randn seeds) (circAnchorC randn seeds) ((k : ℝ) / (nf : ℝ))) := by
  have h := circularloopGo_eq (d / 2) (circAnchorA randn seeds) (circAnchorB randn seeds)
    (circAnchorC randn seeds) nf hnf nf 0 (nf + 1) (by omega) (by omega)
  have h0 : (((0 : ℕ) : ℝ) / (nf : ℝ)) = 0 := by simp
  rw [h0] at h
  unfold circularloop
  rw [h]
  apply List.map_congr_left
  intro j _
  congr 2
  push_cast
  ring

theorem getD_eq_getElem_of_lt (l : List α) (a : α) (n : ℕ) (h : n < l.length) :
    l.getD n a = l[n] := by
  simp [List.getD_eq_getElem?_getD, List.getElem?_eq_getElem h]

theorem circular_interpolation_radius_zero (la lb lc : List ℝ) (t : ℝ) (L : ℕ)
    (ha : la.length = L) (hb : lb.length = L) (hc : lc.length = L) :
    circular_interpolation 0 la lb lc t = la := by
  apply List.ext_getElem
  · rw [circular_interpolation_length 0 la lb lc t L ha hb hc, ha]
  · intro i h1 h2
    have hL : i < L := by
      rw [circular_interpolation_length 0 la lb lc t L ha hb hc] at h1
      exact h1
    rw [circular_interpolation_getElem 0 la lb lc t i h1 h2
      (by rw [length_circAxis, ha, hb]; omega) (by rw [length_circAxis, ha, hc]; omega)]
    ring

/-- Stub sampler used for the concrete C8 instances: three fixed
two-dimensional anchor latents. -/
noncomputable def crand : ℕ → ℤ → List ℝ :=
  fun _ s => if s = 0 then [0, 0] else if s = 1 then [-1, 0] else [0, -1]

/-- Constant-zero sampler honoring the shape contract of
`np.random.RandomState(seed).randn`, used as the C4 witness input. -/
def randn0 : ℕ → ℤ → List ℝ :=
  fun n _ => List.replicate n 0

/-! ### Claim theorems: C4, C8 -/

/-- C4: the claim holds for lerp mode (line 168 samples `randn(G.z_dim)`)
but the circularloop anchors are sampled at the hardcoded dimension 512
(lines 57-59), which differs from the z_dim of a network with, say,
`z_dim = 64`; the sampler is abstract, constrained by the shape contract
of `randn`. -/
theorem claim_C4_latent_dims (randn : ℕ → ℤ → List ℝ)
    (hcontract : ∀ (n : ℕ) (s : ℤ), (randn n s).length = n) :
    (∀ (z_dim : ℕ) (all_seeds : List ℤ), ∀ z ∈ lerpLatents randn z_dim all_seeds,
      z.length = z_dim)
    ∧ (∀ seeds : List ℤ,
        (circAnchorA randn seeds).length = 512
        ∧ (circAnchorB randn seeds).length = 512
        ∧ (circAnchorC randn seeds).length = 512)
    ∧ (512 : ℕ) ≠ 64 := by
  refine ⟨?_, ?_, by norm_num⟩
  · intro z_dim all_seeds z hz
    simp only [lerpLatents, List.mem_map] at hz
    obtain ⟨s, _, rfl⟩ := hz
    exact hcontract z_dim s
  · intro seeds
    exact ⟨hcontract _ _, hcontract _ _, hcontract _ _⟩

/-- C4 witness: the shape contract and the conclusion at the
constant-zero sampler. -/
theorem claim_C4_witness :
    (∀ (n : ℕ) (s : ℤ), (randn0 n s).length = n)
    ∧ ((∀ (z_dim : ℕ) (all_seeds : List ℤ), ∀ z ∈ lerpLatents randn0 z_dim all_seeds,
          z.length = z_dim)
      ∧ (∀ seeds : List ℤ,
          (circAnchorA randn0 seeds).length = 512
          ∧ (circAnchorB randn0 seeds).length = 512
          ∧ (circAnchorC randn0 seeds).length = 512)
      ∧ (512 : ℕ) ≠ 64) :=
  ⟨fun n s => by simp [randn0],
   claim_C4_latent_dims randn0 (fun n s => by simp [randn0])⟩

/-- C8 counterexample: with diameter 0 (radius 0) every sample equals
the first anchor, so with `nf = 2` the loop produces two samples and the
last is an exact duplicate of the first, refuting the claim's
never-a-duplicate clause. -/
theorem claim_C8_counterexample :
    (circularloop crand 2 0 [0, 1, 2]).length = 2
    ∧ (circularloop crand 2 0 [0, 1, 2]).getD 1 []
        = (circularloop crand 2 0 [0, 1, 2]).getD 0 [] := by
  have hs := circularloop_samples crand 2 (by norm_num) 0 [0, 1, 2]
  have hA : circAnchorA crand [0, 1, 2] = [0, 0] := by
    simp [circAnchorA, crand]
  have hB : circAnchorB crand [0, 1, 2] = [-1, 0] := by
    norm_num [circAnchorB, crand]
  have hC : circAnchorC crand [0, 1, 2] = [0, -1] := by
    norm_num [circAnchorC, crand]
  have hzero : ((0 : ℝ) / 2) = 0 := by norm_num
  have hval : ∀ t : ℝ, circular_interpolation ((0 : ℝ) / 2) (circAnchorA crand [0, 1, 2])
      (circAnchorB crand [0, 1, 2]) (circAnchorC crand [0, 1, 2]) t = [0, 0] := by
    intro t
    rw [hzero, hA, hB, hC]
    exact circular_interpolation_radius_zero [0, 0] [-1, 0] [0, -1] t 2 rfl rfl rfl
  constructor
  · rw [hs]
    simp
  · rw [hs]
    have hr2 : List.range 2 = [0, 1] := rfl
    rw [hr2]
    simp only [List.map_cons, List.map_nil]
    rw [getD_eq_getElem_of_lt _ _ 1 (by simp), getD_eq_getElem_of_lt _ _ 0 (by simp)]
    simp only [List.getElem_cons_succ, List.getElem_cons_zero]
    rw [hval, hval]

/-- C8 (amended): with anchors `a`, `b`, `c` expanded from the first
three seeds (at the hardcoded dimension 512) and radius `d/2`, the
circular interpolator returns
`a + sin(2*pi*p)*r*normalize(a-b) + cos(2*pi*p)*r*normalize(a-c)`, and
(in exact arithmetic) `circularloop` samples it at `p = k/nf` for
`k = 0, ..., nf-1`, all strictly below 1, producing exactly one latent
vector per output frame; the last sample is not an exact duplicate of
the first provided `nf ≥ 2`, the diameter is nonzero and the two
normalized axis vectors are linearly independent (with diameter 0 the
last sample equals the first exactly, see the counterexample). -/
theorem claim_C8_circular_loop (randn : ℕ → ℤ → List ℝ) (nf : ℕ) (d : ℝ) (seeds : List ℤ)
    (L : ℕ)
    (ha : (circAnchorA randn seeds).length = L)
    (hb : (circAnchorB randn seeds).length = L)
    (hc : (circAnchorC randn seeds).length = L)
    (hnf : 1 ≤ nf) :
    (∀ t : ℝ, circular_interpolation (d / 2) (circAnchorA randn seeds)
        (circAnchorB randn seeds) (circAnchorC randn seeds) t =
      vadd (vadd (circAnchorA randn seeds)
          (vsmul (Real.sin (Real.pi * 2 * t) * (d / 2))
            (circAxis (circAnchorA randn seeds) (circAnchorB randn seeds))))
        (vsmul (Real.cos (Real.pi * 2 * t) * (d / 2))
          (circAxis (circAnchorA randn seeds) (circAnchorC randn seeds))))
    ∧ (circularloop randn nf d seeds).length = nf
    ∧ (∀ k : ℕ, k < nf → (circularloop randn nf d seeds).getD k [] =
        circular_interpolation (d / 2) (circAnchorA randn seeds) (circAnchorB randn seeds)
          (circAnchorC randn seeds) ((k : ℝ) / (nf : ℝ)))
    ∧ (∀ k : ℕ, k < nf → ((k : ℝ) / (nf : ℝ)) < 1)
    ∧ (2 ≤ nf → d ≠ 0 →
        (∀ s t : ℝ,
          vadd (vsmul s (circAxis (circAnchorA randn seeds) (circAnchorB randn seeds)))
            (vsmul t (circAxis (circAnchorA randn seeds) (circAnchorC randn seeds)))
            = List.replicate L 0 → s = 0 ∧ t = 0) →
        (circularloop randn nf d seeds).getD (nf - 1) []
          ≠ (circularloop randn nf d seeds).getD 0 []) := by
  have hnfpos : (0 : ℝ) < nf := by
    exact_mod_cast Nat.lt_of_lt_of_le Nat.zero_lt_one hnf
  have hs := circularloop_samples randn nf hnf d seeds
  set cA := circAnchorA randn seeds with hcA
  set cB := circAnchorB randn seeds with hcB
  set cC := circAnchorC randn seeds with hcC
  have haxb : (circAxis cA cB).length = L := by
    rw [length_circAxis, ha, hb, Nat.min_self]
  have haxc : (circAxis cA cC).length = L := by
    rw [length_circAxis, ha, hc, Nat.min_self]
  refine ⟨fun t => rfl, ?_, ?_, ?_, ?_⟩
  · rw [hs]
    simp
  · intro k hk
    rw [hs, getD_eq_getElem_of_lt _ _ k
      (by simp only [List.length_map, List.length_range]; omega)]
    simp
  · intro k hk
    rw [div_lt_one hnfpos]
    exact_mod_cast hk
  · intro h2nf hd hindep heq
    set q : ℝ := ((nf - 1 : ℕ) : ℝ) / (nf : ℝ) with hqdef
    have hlast : (circularloop randn nf d seeds).getD (nf - 1) [] =
        circular_interpolation (d / 2) cA cB cC q := by
      rw [hs, getD_eq_getElem_of_lt _ _ _
        (by simp only [List.length_map, List.length_range]; omega)]
      simp [hqdef]
    have hfirst : (circularloop randn nf d seeds).getD 0 [] =
        circular_interpolation (d / 2) cA cB cC 0 := by
      rw [hs, getD_eq_getElem_of_lt _ _ _
        (by simp only [List.length_map, List.length_range]; omega)]
      simp
    rw [hlast, hfirst] at heq
    have hsin0 : Real.sin (Real.pi * 2 * 0) = 0 := by
      rw [mul_zero, Real.sin_zero]
    have hcos0 : Real.cos (Real.pi * 2 * 0) = 1 := by
      rw [mul_zero, Real.cos_zero]
    have hlen1 : (circular_interpolation (d / 2) cA cB cC q).length = L :=
      circular_interpolation_length (d / 2) cA cB cC q L ha hb hc
    have hlen2 : (circular_interpolation (d / 2) cA cB cC 0).length = L :=
      circular_interpolation_length (d / 2) cA cB cC 0 L ha hb hc
    have hcomp : ∀ (i : ℕ) (h2 : i < (circAxis cA cB).length)
        (h3 : i < (circAxis cA cC).length),
        Real.sin (Real.pi * 2 * q) * (d / 2) * (circAxis cA cB)[i]
          + (Real.cos (Real.pi * 2 * q) * (d / 2) - d / 2) * (circAxis cA cC)[i] = 0 := by
      intro i h2 h3
      have hiL : i < L := by rw [haxb] at h2; exact h2
      have hiA : i < cA.length := by rw [ha]; exact hiL
      have e1 := circular_interpolation_getElem (d / 2) cA cB cC q i
        (by rw [hlen1]; exact hiL) hiA h2 h3
      have e2 := circular_interpolation_getElem (d / 2) cA cB cC 0 i
        (by rw [hlen2]; exact hiL) hiA h2 h3
      have e3 : (circular_interpolation (d / 2) cA cB cC q)[i]
          = (circular_interpolation (d / 2) cA cB cC 0)[i] :=
        List.getElem_of_eq heq (by rw [hlen1]; exact hiL)
      rw [hsin0, hcos0] at e2
      have e4 := (e1.symm.trans e3).trans e2
      linear_combination e4
    have hvec : vadd (vsmul (Real.sin (Real.pi * 2 * q) * (d / 2)) (circAxis cA cB))
        (vsmul (Real.cos (Real.pi * 2 * q) * (d / 2) - d / 2) (circAxis cA cC))
        = List.replicate L 0 := by
      apply List.ext_getElem
      · rw [length_vadd, length_vsmul, length_vsmul, haxb, haxc]
        simp
      · intro i h1 h2
        have hiL : i < L := by
          rw [length_vadd, length_vsmul, length_vsmul, haxb, haxc, Nat.min_self] at h1
          exact h1
        have hx : i < (circAxis cA cB).length := by rw [haxb]; exact hiL
        have hy : i < (circAxis cA cC).length := by rw [haxc]; exact hiL
        rw [List.getElem_replicate]
        simp only [vadd, vsmul, List.getElem_zipWith, List.getElem_map]
        exact hcomp i hx hy
    obtain ⟨hs0, ht0⟩ := hindep _ _ hvec
    have hr : (d / 2) ≠ 0 := by
      intro h
      exact hd (by linarith)
    have hcosq : Real.cos (Real.pi * 2 * q) = 1 := by
      have hmul : (Real.cos (Real.pi * 2 * q) - 1) * (d / 2) = 0 := by
        linear_combination ht0
      rcases mul_eq_zero.mp hmul with h | h
      · linarith
      · exact absurd h hr
    obtain ⟨n, hn⟩ := (Real.cos_eq_one_iff _).mp hcosq
    have h2pi : (2 * Real.pi) ≠ 0 := by positivity
    have hqn : (n : ℝ) = q := by
      apply mul_right_cancel₀ h2pi
      rw [hn, hqdef]
      ring
    have hnum : (0 : ℝ) < ((nf - 1 : ℕ) : ℝ) := by
      have h : 0 < nf - 1 := by omega
      exact_mod_cast h
    have hq0 : (0 : ℝ) < q := by
      rw [hqdef]
      exact div_pos hnum hnfpos
    have hq1 : q < 1 := by
      rw [hqdef, div_lt_one hnfpos]
      exact_mod_cast Nat.sub_lt (by omega) (by omega)
    have h1n : (0 : ℤ) < n := by
      have : (0 : ℝ) < (n : ℝ) := by rw [hqn]; exact hq0
      exact_mod_cast this
    have h2n : n < 1 := by
      have : ((n : ℝ)) < 1 := by rw [hqn]; exact hq1
      exact_mod_cast this
    omega

/-- Normalized x-axis of the concrete C8 instance. -/
theorem crand_axis_x : circAxis [(0 : ℝ), 0] [-1, 0] = [1, 0] := by
  have h1 : vsub [(0 : ℝ), 0] [-1, 0] = [1, 0] := by
    norm_num [vsub]
  have h2 : npNorm [(1 : ℝ), 0] = 1 := by
    have hsum : ((List.map (fun a => a * a) [(1 : ℝ), 0])).sum = 1 := by
      norm_num
    rw [npNorm, hsum, Real.sqrt_one]
  rw [circAxis, h1, h2]
  norm_num [vdivs]

/-- Normalized y-axis of the concrete C8 instance. -/
theorem crand_axis_y : circAxis [(0 : ℝ), 0] [0, -1] = [0, 1] := by
  have h1 : vsub [(0 : ℝ), 0] [0, -1] = [0, 1] := by
    norm_num [vsub]
  have h2 : npNorm [(0 : ℝ), 1] = 1 := by
    have hsum : ((List.map (fun a => a * a) [(0 : ℝ), 1])).sum = 1 := by
      norm_num
    rw [npNorm, hsum, Real.sqrt_one]
  rw [circAxis, h1, h2]
  norm_num [vdivs]

/-- C8 witness: concrete instantiation with the stub sampler, `nf = 2`,
diameter 2, orthonormal axes; the loop yields two samples and the last
differs from the first. -/
theorem claim_C8_witness :
    ((circAnchorA crand [0, 1, 2]).length = 2
      ∧ (circAnchorB crand [0, 1, 2]).length = 2
      ∧ (circAnchorC crand [0, 1, 2]).length = 2
      ∧ 1 ≤ 2)
    ∧ (circularloop crand 2 2 [0, 1, 2]).length = 2
    ∧ (circularloop crand 2 2 [0, 1, 2]).getD (2 - 1) []
        ≠ (circularloop crand 2 2 [0, 1, 2]).getD 0 [] := by
  have hA : circAnchorA crand [0, 1, 2] = [0, 0] := by
    simp [circAnchorA, crand]
  have hB : circAnchorB crand [0, 1, 2] = [-1, 0] := by
    norm_num [circAnchorB, crand]
  have hC : circAnchorC crand [0, 1, 2] = [0, -1] := by
    norm_num [circAnchorC, crand]
  have thm := claim_C8_circular_loop crand 2 2 [0, 1, 2] 2
    (by rw [hA]; rfl) (by rw [hB]; rfl) (by rw [hC]; rfl) (by decide)
  refine ⟨⟨by rw [hA]; rfl, by rw [hB]; rfl, by rw [hC]; rfl, by decide⟩, thm.2.1, ?_⟩
  apply thm.2.2.2.2 (by decide) (by norm_num)
  intro s t h
  rw [hA, hB, hC, crand_axis_x, crand_axis_y] at h
  have hval : vadd (vsmul s [(1 : ℝ), 0]) (vsmul t [(0 : ℝ), 1]) = [s, t] := by
    simp [vadd, vsmul]
  rw [hval] at h
  have h2 : List.replicate 2 (0 : ℝ) = [0, 0] := rfl
  rw [h2] at h
  exact ⟨by simpa using congrArg (fun l => l.getD 0 1) h,
    by simpa using congrArg (fun l => l.getD 1 1) h⟩

end GenVideo
